import Mathlib

/-!
Verification development for the book-ingestion and retrieval backend.

Texts are modelled as lists of characters and positions as natural
numbers.  Python slice/find/rfind primitives are embedded below; each
translated function keeps the name and structure of its Python source
(`structure_extractor.py`, `chunk_utils.py`, `books.py`, `chat.py`,
`embedding_service.py`).

Two deliberate modelling conventions, noted where they apply:
the Python expression `int(target_size * 0.9)` is evaluated in floating
point by CPython; we model it as the exact floor `9 * target_size / 10`,
which agrees for all realistic sizes, and `str.lower` / `str.strip` are
modelled over their ASCII behaviour.
-/

/-- Python slice `s[a:b]` for nonnegative clamped indices. -/
def pySlice (s : List Char) (a b : Nat) : List Char :=
  (s.take b).drop a

/-- Decidable check that `sub` occurs at the front of `hay`. -/
def isPre : List Char → List Char → Bool
  | [], _ => true
  | _ :: _, [] => false
  | a :: as, b :: bs => a == b && isPre as bs

/-- Does `sub` occur in `s` starting exactly at index `i`? -/
def matchAt (s sub : List Char) (i : Nat) : Bool :=
  isPre sub (s.drop i)

/-- All candidate match positions of `sub` inside `s[a:b]`, in increasing
order, mirroring the search window of Python `str.find`/`str.rfind`
(`b` is clamped to the length of `s`). -/
def candIdx (s sub : List Char) (a b : Nat) : List Nat :=
  (List.range (min b s.length + 1)).filter fun i =>
    decide (a ≤ i) && decide (i + sub.length ≤ min b s.length) && matchAt s sub i

/-- Python `s.find(sub, a, b)`: lowest match position, `none` for `-1`. -/
def pyFind (s sub : List Char) (a b : Nat) : Option Nat :=
  (candIdx s sub a b).head?

/-- Python `s.rfind(sub, a, b)`: highest match position, `none` for `-1`. -/
def pyRfind (s sub : List Char) (a b : Nat) : Option Nat :=
  (candIdx s sub a b).getLast?

/-- Translation of the Python comparison `find_result > n`, where a failed
find is `-1` and therefore never greater than a nonnegative `n`. -/
def gtOpt : Option Nat → Nat → Bool
  | none, _ => false
  | some i, n => n < i

/-- The two-character paragraph boundary from the source. -/
def nl2 : List Char := ['\n', '\n']

/-- The single-character line boundary from the source. -/
def nl1 : List Char := ['\n']

/-- Embedding of `get_safe_chunk_boundary(text, start_pos, target_size,
text_length)` from `structure_extractor.py`: cut a window of at most
`target_size` characters starting at `start_pos`, preferring to end just
after a double newline found in the last 10 percent of the window, then
just after a single newline, else at the raw offset. -/
def get_safe_chunk_boundary (text : List Char) (start_pos target_size text_length : Nat) :
    Nat × List Char :=
  let end_pos := min (start_pos + target_size) text_length
  if text_length ≤ end_pos then
    (text_length, pySlice text start_pos text_length)
  else
    let search_start := max (start_pos + 9 * target_size / 10) start_pos
    let search_end := end_pos
    let last_double_newline := pyRfind text nl2 search_start search_end
    let last_newline := pyRfind text nl1 search_start search_end
    let end2 :=
      if gtOpt last_double_newline start_pos then last_double_newline.getD 0 + 2
      else if gtOpt last_newline start_pos then last_newline.getD 0 + 1
      else end_pos
    (end2, pySlice text start_pos end2)

/-- Search start of the 10-percent window, as computed in the source. -/
def searchStart (start_pos target_size : Nat) : Nat :=
  max (start_pos + 9 * target_size / 10) start_pos


-- ### rolling-cursor ingestion loop (structure_extractor.py, extract_structure)

/-- Embedding of `find_paragraph_position(text, paragraph, search_start)`:
end position of `paragraph` inside `text`, trying an exact match first and
then the last 200 characters of the paragraph, `none` for `-1`. -/
def find_paragraph_position (text paragraph : List Char) (search_start : Nat) : Option Nat :=
  if paragraph = [] then none
  else
    match pyFind text paragraph search_start text.length with
    | some pos => some (pos + paragraph.length)
    | none =>
      let para_end := paragraph.drop (paragraph.length - 200)
      match pyFind text para_end search_start text.length with
      | some pos =>
        let potential_end := pos + para_end.length
        let next_boundary := pyFind text nl2 potential_end (potential_end + 100)
        if gtOpt next_boundary potential_end then some (next_boundary.getD 0)
        else some potential_end
      | none => none

/-- Outcome of one chunk iteration of the structuring oracle, after the
retry budget: either no parseable response at all, or a parsed response
carrying `last_processed_paragraph` and `stopped_early` (the latter is
only logged by the source and does not influence the cursor). -/
inductive OracleOutcome where
  | failed : OracleOutcome
  | parsed (last_processed_paragraph : List Char) (stopped_early : Bool) : OracleOutcome

/-- One loop iteration of the oracle as the cursor logic sees it:
`resliced` records whether a JSON-decode retry re-sliced the window with
the 20-percent-smaller target before the final outcome. -/
structure OracleIter where
  resliced : Bool
  outcome : OracleOutcome

/-- The chunk size constant of `extract_structure` (40K characters). -/
def chunk_size : Nat := 40000

/-- Window end used by the current iteration: the safe boundary for the
full 40K target, or for the re-sliced `int(chunk_size * 0.8)` target when
a decode retry re-sliced the window. -/
def windowEnd (text : List Char) (cur : Nat) (resliced : Bool) : Nat :=
  if resliced then (get_safe_chunk_boundary text cur 32000 text.length).1
  else (get_safe_chunk_boundary text cur chunk_size text.length).1

/-- The `next_pos` computation of `extract_structure`: locate the oracle
reported last paragraph from the cursor onward; when found beyond the
cursor, continue just after it (skipping a following blank-line
separator found within 200 characters); otherwise fall back to the
window end. -/
def computedNextPos (text : List Char) (cur end_pos : Nat) (last_para : List Char) : Nat :=
  if last_para ≠ [] then
    match find_paragraph_position text last_para cur with
    | some para_end_pos =>
      if cur < para_end_pos then
        let next_para_start := pyFind text nl2 para_end_pos (para_end_pos + 200)
        if gtOpt next_para_start para_end_pos then next_para_start.getD 0 + 2
        else para_end_pos
      else end_pos
    | none => end_pos
  else end_pos

/-- Cursor update of one iteration of the rolling loop, including the
progress safety check that forces the cursor to the window end whenever
the computed next position does not advance. -/
def stepCursor (text : List Char) (cur : Nat) (ob : OracleIter) : Nat :=
  let end_pos := windowEnd text cur ob.resliced
  match ob.outcome with
  | .failed => end_pos
  | .parsed last_para _ =>
    let next_pos := computedNextPos text cur end_pos last_para
    if next_pos ≤ cur then end_pos else next_pos

/-- The cursor after `k` iterations of the rolling loop against an
arbitrary oracle behaviour `obs`; iterations stop moving once the cursor
has reached the end of the text (the `while current_pos < text_length`
guard). -/
def cursorSeq (text : List Char) (obs : Nat → OracleIter) : Nat → Nat
  | 0 => 0
  | k + 1 =>
    let c := cursorSeq text obs k
    if c < text.length then stepCursor text c (obs k) else c

-- ### truncated-JSON repair (structure_extractor.py, repair_truncated_json)

/-- The characters stripped by Python `str.strip()` (ASCII fragment). -/
def pyIsSpace (c : Char) : Bool :=
  c == ' ' || c == '\t' || c == '\n' || c == '\r' || c == '\x0b' || c == '\x0c'

/-- Python truthiness test `not json_str or not json_str.strip()`. -/
def isBlank (s : List Char) : Bool :=
  s.all pyIsSpace

/-- Python `str.strip()`: drop leading and trailing whitespace. -/
def pyStrip (s : List Char) : List Char :=
  ((s.dropWhile pyIsSpace).reverse.dropWhile pyIsSpace).reverse

/-- The string scanner of `repair_truncated_json`: walk the characters
with an escape flag, toggling the in-string flag at each unescaped
double quote, returning the final in-string flag. -/
def scanInString : List Char → Bool → Bool → Bool
  | [], _, inS => inS
  | _ :: cs, true, inS => scanInString cs false inS
  | c :: cs, false, inS =>
    if c = '\\' then scanInString cs true inS
    else if c = '"' then scanInString cs false (!inS)
    else scanInString cs false inS

/-- The closing loop `while open > close: result += ch; close += 1`. -/
def closeLoop (res : List Char) (ch : Char) (opn cls : Nat) : List Char :=
  if cls < opn then closeLoop (res ++ [ch]) ch opn (cls + 1) else res
termination_by opn - cls

/-- Embedding of `repair_truncated_json(json_str)`: close an unterminated
string literal, then balance brackets and braces by appending closers. -/
def repair_truncated_json (json_str : List Char) : List Char :=
  if isBlank json_str then json_str
  else
    let open_braces := json_str.count '{'
    let close_braces := json_str.count '}'
    let open_brackets := json_str.count '['
    let close_brackets := json_str.count ']'
    let in_string := scanInString json_str false false
    let res0 := if in_string then json_str ++ ['"'] else json_str
    let res1 := closeLoop res0 ']' open_brackets close_brackets
    closeLoop res1 '}' open_braces close_braces


-- ### intent classification (chat.py, four-path strategy selection)

/-- Python `str.lower()` over its ASCII behaviour. -/
def toLowerStr (s : String) : String :=
  String.mk (s.data.map Char.toLower)

/-- Python substring test `sub in hay`. -/
def containsSub (hay sub : String) : Bool :=
  (pyFind hay.data sub.data 0 hay.data.length).isSome

/-- Python `any(keyword in hay for keyword in kws)`. -/
def containsAny (hay : String) (kws : List String) : Bool :=
  kws.any fun k => containsSub hay k

/-- Keyword list `reasoning_intent_keywords` from `chat.py`. -/
def reasoning_intent_keywords : List String := [
  "analyze", "analyse", "analysis", "compare", "comparison", "contrast",
  "why", "how does", "how is", "how are", "what causes", "what leads to",
  "connect", "connection", "relationship", "relate", "correlate",
  "explain why", "what is the relationship", "what is the connection",
  "difference between", "similarities between", "distinguish"]

/-- Keyword list `action_planner_keywords` from `chat.py`. -/
def action_planner_keywords : List String := [
  "plan", "schedule", "how to", "how do", "solve", "simulate", "simulation",
  "script", "routine", "checklist", "steps", "step-by-step", "guide me",
  "create a", "make a", "build a", "design a", "implement", "methodology",
  "framework", "process", "procedure", "workflow"]

/-- Keyword list `follow_up_keywords` from `chat.py`. -/
def follow_up_keywords : List String := [
  "help with", "how do i", "what about", "what is", "explain", "tell me about",
  "day", "step", "percentage", "determine", "calculate", "figure out",
  "i need help", "i don\x27t understand", "can you explain", "what does",
  "how does", "how is", "how are", "when should", "where do"]

/-- Keyword list `global_intent_keywords` from `chat.py` (the duplicated
entry is present in the source). -/
def global_intent_keywords : List String := [
  "summarize", "summarise", "summary", "overview", "what is this book about",
  "what is the book about", "tell me about this book", "describe this book",
  "what does this book cover", "what is the book about", "book summary"]

/-- The four retrieval strategies of the router. -/
inductive Strategy where
  | Specific | Global | Reasoning | ActionPlanner
deriving DecidableEq

/-- Embedding of the intent-detection block of the chat endpoint: the four
flags are computed exactly as in the source and routed with the fixed
branch order reasoning, action planner, global, specific. -/
def classify (message : String) (has_existing_artifact : Bool) : Strategy :=
  let user_message_lower := toLowerStr message
  let is_reasoning_query := containsAny user_message_lower reasoning_intent_keywords
  let is_follow_up_about_artifact :=
    has_existing_artifact && containsAny user_message_lower follow_up_keywords
  let is_action_planner_query :=
    containsAny user_message_lower action_planner_keywords &&
    !is_reasoning_query && !is_follow_up_about_artifact
  let is_global_query :=
    containsAny user_message_lower global_intent_keywords &&
    !is_reasoning_query && !is_action_planner_query
  if is_reasoning_query then .Reasoning
  else if is_action_planner_query then .ActionPlanner
  else if is_global_query then .Global
  else .Specific

-- ### retrieval fallback chain (chat.py, Path A search block)

/-- The layers of the retrieval fallback chain, in source order. -/
inductive Layer where
  | hybridRanked | vectorRanked | vectorRelaxed | unrankedEmbedded | unrankedAny
deriving DecidableEq

/-- The external index as the chain sees it: ranked hybrid and vector
searches may raise (modelled as `Except`), the two unranked table reads
return one row list per scope book.  Thresholds are scaled by 100 to
stay in the naturals (0.7 is 70). -/
structure SearchIndex (alpha : Type) where
  hybrid : Except Unit (List alpha)
  vector : Nat → Except Unit (List alpha)
  withEmbedding : List (List alpha)
  anyRows : List (List alpha)

/-- The relaxed threshold-0.3 retry: runs only when the ranked result is
empty and the strategy threshold exceeds 0.3; its own failure is
swallowed.  Appends its trace entry. -/
def relaxedRetry (idx : SearchIndex alpha) (mt : Nat) (chunks : List alpha)
    (t : List (Layer × Bool)) : List alpha × List (Layer × Bool) :=
  if chunks.isEmpty && decide (30 < mt) then
    match idx.vector 30 with
    | .ok cs => (cs, t ++ [(.vectorRelaxed, !cs.isEmpty)])
    | .error _ => (chunks, t ++ [(.vectorRelaxed, false)])
  else (chunks, t)

/-- The per-book extend-then-truncate accumulation of the last-resort
loop (the truncation sits inside the per-book branch in the source). -/
def anyRowsAccum (rows : List (List alpha)) (mc : Nat) : List alpha :=
  rows.foldl (fun acc r => if !r.isEmpty then (acc ++ r).take mc else acc) []

/-- Embedding of the Path A search block of the chat endpoint: hybrid
ranked search, vector ranked search on hybrid failure, relaxed retry at
threshold 0.3 on empty, unranked embedded-row read when the ranked stack
raised, and a final last-resort read of any rows when still empty.
Returns the retrieved rows together with the invocation trace, each
entry flagged with whether that layer yielded a non-empty result. -/
def pathARetrieve (idx : SearchIndex alpha) (mt mc : Nat) :
    List alpha × List (Layer × Bool) :=
  let stage1 :=
    match idx.hybrid with
    | .ok cs => relaxedRetry idx mt cs [(.hybridRanked, !cs.isEmpty)]
    | .error _ =>
      match idx.vector mt with
      | .ok cs =>
        relaxedRetry idx mt cs [(.hybridRanked, false), (.vectorRanked, !cs.isEmpty)]
      | .error _ =>
        let cs := (idx.withEmbedding.foldl (fun a r => a ++ r) []).take mc
        (cs, [(.hybridRanked, false), (.vectorRanked, false),
              (.unrankedEmbedded, !cs.isEmpty)])
  let chunks := stage1.1
  let trace := stage1.2
  if chunks.isEmpty then
    let cs2 := anyRowsAccum idx.anyRows mc
    (cs2, trace ++ [(.unrankedAny, !cs2.isEmpty)])
  else (chunks, trace)


-- ### persistent citation tokens (chunk_utils.py, generate_chunk_id)
-- The token is the `md5` hexdigest of the identifier, truncated to 8 hex
-- characters and prefixed with the `#chk_` marker.  MD5 is embedded below
-- over byte lists, with 32-bit words as naturals reduced mod 2 ^ 32.

/-- Structural helper for `chunkList`: the fuel bounds the number of
chunks, and the full list length always suffices. -/
def chunkListFuel : Nat → Nat → List alpha → List (List alpha)
  | 0, _, _ => []
  | _ + 1, _, [] => []
  | _ + 1, 0, _ :: _ => []
  | fuel + 1, n + 1, x :: xs =>
    (x :: xs).take (n + 1) :: chunkListFuel fuel (n + 1) ((x :: xs).drop (n + 1))

/-- Split a list into consecutive chunks of `n` elements (the slicing
loop `for i in range(0, len, n)`); empty for `n = 0`. -/
def chunkList (n : Nat) (l : List alpha) : List (List alpha) :=
  chunkListFuel l.length n l

/-- MD5 round constants. -/
def md5K : List Nat := [
  3614090360, 3905402710, 606105819, 3250441966,
  4118548399, 1200080426, 2821735955, 4249261313,
  1770035416, 2336552879, 4294925233, 2304563134,
  1804603682, 4254626195, 2792965006, 1236535329,
  4129170786, 3225465664, 643717713, 3921069994,
  3593408605, 38016083, 3634488961, 3889429448,
  568446438, 3275163606, 4107603335, 1163531501,
  2850285829, 4243563512, 1735328473, 2368359562,
  4294588738, 2272392833, 1839030562, 4259657740,
  2763975236, 1272893353, 4139469664, 3200236656,
  681279174, 3936430074, 3572445317, 76029189,
  3654602809, 3873151461, 530742520, 3299628645,
  4096336452, 1126891415, 2878612391, 4237533241,
  1700485571, 2399980690, 4293915773, 2240044497,
  1873313359, 4264355552, 2734768916, 1309151649,
  4149444226, 3174756917, 718787259, 3951481745]

/-- MD5 per-round left-rotation amounts. -/
def md5S : List Nat := [
  7, 12, 17, 22, 7, 12, 17, 22, 7, 12, 17, 22, 7, 12, 17, 22,
  5, 9, 14, 20, 5, 9, 14, 20, 5, 9, 14, 20, 5, 9, 14, 20,
  4, 11, 16, 23, 4, 11, 16, 23, 4, 11, 16, 23, 4, 11, 16, 23,
  6, 10, 15, 21, 6, 10, 15, 21, 6, 10, 15, 21, 6, 10, 15, 21]

/-- Rotate a 32-bit word left by `n` bits. -/
def rotl32 (x n : Nat) : Nat :=
  ((x <<< n) % 4294967296) ||| (x >>> (32 - n))

/-- One MD5 round applied to the running state `(a, b, c, d)`. -/
def md5Round (M : List Nat) (st : Nat × Nat × Nat × Nat) (i : Nat) :
    Nat × Nat × Nat × Nat :=
  let a := st.1
  let b := st.2.1
  let c := st.2.2.1
  let d := st.2.2.2
  let f :=
    if i < 16 then (b &&& c) ||| ((b ^^^ 4294967295) &&& d)
    else if i < 32 then (d &&& b) ||| ((d ^^^ 4294967295) &&& c)
    else if i < 48 then b ^^^ c ^^^ d
    else c ^^^ (b ||| (d ^^^ 4294967295))
  let g :=
    if i < 16 then i
    else if i < 32 then (5 * i + 1) % 16
    else if i < 48 then (3 * i + 5) % 16
    else (7 * i) % 16
  let tmp := (a + f + md5K.getD i 0 + M.getD g 0) % 4294967296
  (d, (b + rotl32 tmp (md5S.getD i 0)) % 4294967296, b, c)

/-- Decode a 64-byte block into 16 little-endian 32-bit words. -/
def toWords (block : List Nat) : List Nat :=
  (chunkList 4 block).map fun c =>
    c.getD 0 0 + 256 * c.getD 1 0 + 65536 * c.getD 2 0 + 16777216 * c.getD 3 0

/-- Process one 64-byte block and add the result into the state. -/
def md5Block (st : Nat × Nat × Nat × Nat) (block : List Nat) :
    Nat × Nat × Nat × Nat :=
  let r := (List.range 64).foldl (md5Round (toWords block)) st
  ((st.1 + r.1) % 4294967296, (st.2.1 + r.2.1) % 4294967296,
   (st.2.2.1 + r.2.2.1) % 4294967296, (st.2.2.2 + r.2.2.2) % 4294967296)

/-- MD5 padding: append `0x80`, zero bytes up to 56 mod 64, then the
original bit length as 8 little-endian bytes. -/
def md5Pad (msg : List Nat) : List Nat :=
  let len := msg.length
  let padLen := (120 - (len + 1) % 64) % 64
  let bitLen := (8 * len) % 18446744073709551616
  msg ++ [128] ++ List.replicate padLen 0 ++
    ((List.range 8).map fun i => bitLen / 256 ^ i % 256)

/-- Serialize one 32-bit word to 4 little-endian bytes. -/
def wordLE (w : Nat) : List Nat :=
  [w % 256, w / 256 % 256, w / 65536 % 256, w / 16777216 % 256]

/-- The 16-byte MD5 digest of a byte list. -/
def md5Bytes (msg : List Nat) : List Nat :=
  let st := (chunkList 64 (md5Pad msg)).foldl md5Block
    (1732584193, 4023233417, 2562383102, 271733878)
  wordLE st.1 ++ wordLE st.2.1 ++ wordLE st.2.2.1 ++ wordLE st.2.2.2

/-- The lower-case hexadecimal alphabet. -/
def hexDigits : List Char := "0123456789abcdef".data

/-- The hex character of a nibble. -/
def hexChar (n : Nat) : Char := hexDigits.getD n '0'

/-- One byte as two hex characters. -/
def byteHex (b : Nat) : List Char := [hexChar (b / 16 % 16), hexChar (b % 16)]

/-- Python `hashlib.md5(x).hexdigest()` over the bytes of `x`. -/
def hexdigest (msg : List Nat) : List Char :=
  ((md5Bytes msg).map byteHex).flatten

/-- The UTF-8 bytes of an identifier string (identifiers are ASCII, where
the code point is the byte). -/
def strBytes (s : String) : List Nat := s.data.map Char.toNat

/-- Embedding of `generate_chunk_id(chunk_uuid)` from `chunk_utils.py`:
the `#chk_` marker followed by the first 8 hex characters of the MD5
hexdigest of the identifier. -/
def generate_chunk_id (chunk_uuid : String) : String :=
  let short_id := (hexdigest (strBytes chunk_uuid)).take 8
  String.mk ("#chk_".data ++ short_id)


-- ### chunk-store materialization (books.py, process_book)

/-- A section of the merged structure tree, after JSON extraction
(`section_title` is the post-`or ""` value). -/
structure PySection where
  section_title : String
  paragraphs : List String
deriving DecidableEq

/-- A chapter of the merged structure tree. -/
structure PyChapter where
  chapter_title : String
  sections : List PySection
deriving DecidableEq

/-- The paragraph clean-up of `process_book`: strip every paragraph and
keep only those that are non-empty afterwards. -/
def cleanParagraphs (ps : List String) : List String :=
  (ps.map fun p => String.mk (pyStrip p.data)).filter fun p => p ≠ ""

/-- `"\n\n".join(paragraphs)`. -/
def joinBlank (ps : List String) : String := String.intercalate "\n\n" ps

/-- A stored Parent Unit row; `pid` models the store-generated id as the
running creation index. -/
structure ParentRow where
  pid : Nat
  chapter_title : String
  section_title : String
  full_text : String
deriving DecidableEq

/-- A stored Child Unit row with its ordinal `paragraph_index`. -/
structure ChildRow where
  parent : Nat
  text : String
  paragraph_index : Nat
deriving DecidableEq

/-- The sections of a tree as (chapter title, section) pairs, in
traversal order of the two nested loops of `process_book`. -/
def allSections (chapters : List PyChapter) : List (String × PySection) :=
  (chapters.map fun ch => ch.sections.map fun s => (ch.chapter_title, s)).flatten

/-- Materialization of the sections list: one Parent Unit per section
with a non-empty cleaned paragraph list (sections cleaning to nothing
are skipped), one Child Unit per cleaned paragraph with its enumeration
index. -/
def materializeSections : List (String × PySection) → Nat → List ParentRow × List ChildRow
  | [], _ => ([], [])
  | (ct, sec) :: rest, pid =>
    let paragraphs := cleanParagraphs sec.paragraphs
    if paragraphs.isEmpty then materializeSections rest pid
    else
      let parent : ParentRow := ⟨pid, ct, sec.section_title, joinBlank paragraphs⟩
      let children := paragraphs.enum.map fun p => ChildRow.mk pid p.2 p.1
      let r := materializeSections rest (pid + 1)
      (parent :: r.1, children ++ r.2)

/-- The chunk-materialization view of `process_book`: Parent and Child
Units created for a merged structure tree. -/
def process_book_chunks (chapters : List PyChapter) : List ParentRow × List ChildRow :=
  materializeSections (allSections chapters) 0

/-- The sections that actually materialize: those whose cleaned
paragraph list is non-empty. -/
def nonemptySections (chapters : List PyChapter) : List (String × PySection) :=
  (allSections chapters).filter fun p => !(cleanParagraphs p.2.paragraphs).isEmpty

-- ### embedding batches and processing status (embedding_service.py / books.py)

/-- Processing status of a document record. -/
inductive BookStatus where
  | processing | ready
  | error (msg : String)
deriving DecidableEq

/-- A stored Child Unit row together with its embedding vector. -/
structure ChildEmb (V : Type) where
  parent : Nat
  text : String
  embedding : V
  paragraph_index : Nat
deriving DecidableEq

/-- Result of one document processing run: final status and the rows
committed to the store. -/
structure BookRun (V : Type) where
  status : BookStatus
  parents : List ParentRow
  children : List (ChildEmb V)

/-- Embedding of `generate_embeddings_batch(texts)`: slice the texts into
batches of 100, call the external embedding collaborator per batch, and
concatenate whatever vectors each call returns; a collaborator error is
re-raised (wrapped) and aborts the whole batch sequence.  No count check
is performed. -/
def generate_embeddings_batch (api : List String → Except String (List V)) :
    List (List String) → Except String (List V)
  | [] => .ok []
  | b :: rest =>
    match api b with
    | .error e => .error ("Error generating embeddings for batch: " ++ e)
    | .ok vs =>
      match generate_embeddings_batch api rest with
      | .error e => .error e
      | .ok tail => .ok (vs ++ tail)

/-- `generate_embeddings_batch` on a flat text list with batch size 100. -/
def embedBatched (api : List String → Except String (List V)) (texts : List String) :
    Except String (List V) :=
  generate_embeddings_batch api (chunkList 100 texts)

/-- The embedding-and-commit loop of `process_book` over the flattened
sections: the parent row is inserted, then the batch of cleaned
paragraph texts is embedded; on an embedding error the run stops with an
`error` status keeping only what was already committed; on success the
child rows are the texts zipped positionally with the returned vectors
(as in the source, `zip` silently truncates on a count mismatch). -/
def processBookGo (api : List String → Except String (List V)) :
    List (String × PySection) → Nat → List ParentRow → List (ChildEmb V) → BookRun V
  | [], _, ps, cs => ⟨.ready, ps, cs⟩
  | (ct, sec) :: rest, pid, ps, cs =>
    let paragraphs := cleanParagraphs sec.paragraphs
    if paragraphs.isEmpty then processBookGo api rest pid ps cs
    else
      let parent : ParentRow := ⟨pid, ct, sec.section_title, joinBlank paragraphs⟩
      match embedBatched api paragraphs with
      | .error e => ⟨.error e, ps ++ [parent], cs⟩
      | .ok embeddings =>
        let newChildren := (paragraphs.zip embeddings).enum.map fun p =>
          ChildEmb.mk pid p.2.1 p.2.2 p.1
        processBookGo api rest (pid + 1) (ps ++ [parent]) (cs ++ newChildren)

/-- The embedding/status view of `process_book` for a structure tree. -/
def process_book_run (api : List String → Except String (List V))
    (chapters : List PyChapter) : BookRun V :=
  processBookGo api (allSections chapters) 0 [] []

-- ### parent-context expansion (chunk_utils.py, get_parent_context_for_chunks)

/-- A retrieved child chunk as the context assembler sees it; the empty
string models an absent `parent_id` or `parent_text` field (Python
falsiness). -/
structure RetChunk where
  id : String
  parent_id : String
  text : String
  parent_text : String
  chapter_title : String
  section_title : String
deriving DecidableEq

/-- Outcome of the parent-row lookup for one parent id: a found row, a
missing row, or a raised exception. -/
inductive ParentFetch where
  | found (full_text chapter_title section_title : String)
  | missing
  | failed
deriving DecidableEq

/-- An enhanced chunk with its context and reference texts. -/
structure EnhChunk where
  id : String
  parent_id : String
  text : String
  context_text : String
  reference_text : String
  chapter_title : String
  section_title : String
deriving DecidableEq

/-- The chunk falling back to its own text. -/
def ownContext (c : RetChunk) : EnhChunk :=
  ⟨c.id, c.parent_id, c.text, c.text, c.text, c.chapter_title, c.section_title⟩

/-- The per-chunk body of the enhancement loop, given the current seen
parent set. -/
def processOne (fetch : String → ParentFetch) (c : RetChunk) (seen : List String) :
    EnhChunk :=
  if c.parent_text ≠ "" then
    ⟨c.id, c.parent_id, c.text, c.parent_text, c.text, c.chapter_title, c.section_title⟩
  else if c.parent_id ≠ "" ∧ c.parent_id ∉ seen then
    match fetch c.parent_id with
    | .found ft ct st => ⟨c.id, c.parent_id, c.text, ft, c.text, ct, st⟩
    | .missing => ownContext c
    | .failed => ownContext c
  else ownContext c

/-- The seen-parent-set update of the enhancement loop: a parent id is
recorded only when its row was actually fetched and found. -/
def seenStep (fetch : String → ParentFetch) (seen : List String) (c : RetChunk) :
    List String :=
  if c.parent_text ≠ "" then seen
  else if c.parent_id ≠ "" ∧ c.parent_id ∉ seen then
    match fetch c.parent_id with
    | .found _ _ _ => c.parent_id :: seen
    | .missing => seen
    | .failed => seen
  else seen

/-- The enhancement loop with its running seen set. -/
def enhanceGo (fetch : String → ParentFetch) : List RetChunk → List String → List EnhChunk
  | [], _ => []
  | c :: rest, seen => processOne fetch c seen :: enhanceGo fetch rest (seenStep fetch seen c)

/-- Embedding of `get_parent_context_for_chunks(chunks, supabase)`. -/
def get_parent_context_for_chunks (fetch : String → ParentFetch)
    (chunks : List RetChunk) : List EnhChunk :=
  enhanceGo fetch chunks []

/-- The seen parent set after a processed prefix. -/
def seenAfter (fetch : String → ParentFetch) (seen : List String)
    (pre : List RetChunk) : List String :=
  pre.foldl (seenStep fetch) seen

-- ### deduplicated source labels (chat.py, context building blocks)

/-- A retrieved chunk as the source-label loop sees it (titles after the
`or ""` defaulting of the source). -/
structure SrcChunk where
  id : String
  book_title : String
  chapter_title : String
  section_title : String
deriving DecidableEq

/-- The `book_title or "Unknown Book"` fallback. -/
def bookTitleOf (c : SrcChunk) : String :=
  if c.book_title = "" then "Unknown Book" else c.book_title

/-- The human-readable source label: `book[, chapter][, section]`, the
section omitted when empty or equal to the chapter. -/
def labelOf (c : SrcChunk) : String :=
  let parts :=
    [bookTitleOf c]
      ++ (if c.chapter_title ≠ "" then [c.chapter_title] else [])
      ++ (if c.section_title ≠ "" ∧ c.section_title ≠ c.chapter_title
          then [c.section_title] else [])
  String.intercalate ", " parts

/-- The deduplication key `f"{book_title}|{chapter}|{section}"`. -/
def keyOf (c : SrcChunk) : String :=
  bookTitleOf c ++ "|" ++ c.chapter_title ++ "|" ++ c.section_title

/-- The source-collection loop: append the label of each chunk whose key
has not been seen yet. -/
def buildSources : List SrcChunk → List String → List String → List String
  | [], sources, _ => sources
  | c :: rest, sources, keys =>
    if keyOf c ∈ keys then buildSources rest sources keys
    else buildSources rest (sources ++ [labelOf c]) (keyOf c :: keys)

/-- The first chunk of each distinct key, in first-seen order. -/
def firstByKey : List SrcChunk → List String → List SrcChunk
  | [], _ => []
  | c :: rest, keys =>
    if keyOf c ∈ keys then firstByKey rest keys
    else c :: firstByKey rest (keyOf c :: keys)

/-- The final `list(set(sources))` of the source.  CPython set iteration
order is implementation defined (string hashing is salted per process),
so any enumeration of the distinct elements is an admissible model; we
use first-occurrence order. -/
def pySetList (l : List String) : List String := l.dedup

/-- The deduplicated source list returned with a chat response. -/
def sources_list (chunks : List SrcChunk) : List String :=
  pySetList (buildSources chunks [] [])


/-- The number of unescaped double quotes of a candidate response,
threading the same escape flag as the scanner; the claim characterizes
an unterminated string literal as an odd value of this count. -/
def unescapedQuotes : List Char → Bool → Nat
  | [], _ => 0
  | _ :: cs, true => unescapedQuotes cs false
  | c :: cs, false =>
    if c = '\\' then unescapedQuotes cs true
    else if c = '"' then 1 + unescapedQuotes cs false
    else unescapedQuotes cs false


/-- The Child Unit rows of one materialized section, grouped by their
Parent Unit in creation order (a derived view of the materialization
used to state per-parent facts). -/
def childGroups (chapters : List PyChapter) : List (List ChildRow) :=
  (List.enumFrom 0 (nonemptySections chapters)).map
    fun q => (cleanParagraphs q.2.2.paragraphs).enum.map fun p => ChildRow.mk q.1 p.2 p.1

-- ### facts about the find primitives

theorem mem_candIdx {s sub : List Char} {a b i : Nat} :
    i ∈ candIdx s sub a b ↔
      a ≤ i ∧ i + sub.length ≤ min b s.length ∧ matchAt s sub i = true := by
  unfold candIdx
  constructor
  · intro h
    have h2 := List.of_mem_filter h
    simp only [Bool.and_eq_true, decide_eq_true_eq] at h2
    exact ⟨h2.1.1, h2.1.2, h2.2⟩
  · rintro ⟨h1, h2, h3⟩
    apply List.mem_filter.mpr
    constructor
    · exact List.mem_range.mpr (Nat.lt_succ_of_le (Nat.le_trans (Nat.le_add_right _ _) h2))
    · simp only [Bool.and_eq_true, decide_eq_true_eq]
      exact ⟨⟨h1, h2⟩, h3⟩

theorem candIdx_pairwise (s sub : List Char) (a b : Nat) :
    (candIdx s sub a b).Pairwise (· < ·) :=
  List.Pairwise.filter _ (List.pairwise_lt_range _)

theorem getLast?_max_of_pairwise :
    ∀ (l : List Nat), l.Pairwise (· < ·) → ∀ m, l.getLast? = some m →
      ∀ x ∈ l, x ≤ m := by
  intro l
  induction l with
  | nil => intro _ m hm; simp at hm
  | cons c cs ih =>
    intro hp m hm x hx
    cases cs with
    | nil =>
      simp at hm hx
      omega
    | cons d ds =>
      have hlast : (d :: ds).getLast? = some m := by
        rw [List.getLast?_cons_cons] at hm
        exact hm
      have hp2 := (List.pairwise_cons.mp hp).2
      have hcm : ∀ y ∈ d :: ds, y ≤ m := ih hp2 m hlast
      rcases List.mem_cons.mp hx with h | h
      · subst h
        have hcd : x < d := (List.pairwise_cons.mp hp).1 d (List.mem_cons_self _ _)
        exact Nat.le_trans (Nat.le_of_lt hcd) (hcm d (List.mem_cons_self _ _))
      · exact hcm x h

theorem pyRfind_spec {s sub : List Char} {a b i : Nat}
    (h : pyRfind s sub a b = some i) :
    i ∈ candIdx s sub a b ∧ ∀ j ∈ candIdx s sub a b, j ≤ i := by
  unfold pyRfind at h
  refine ⟨?_, ?_⟩
  · have hmem : i ∈ (candIdx s sub a b).getLast? := by rw [h]; rfl
    obtain ⟨hne, heq⟩ := List.mem_getLast?_eq_getLast hmem
    rw [heq]
    exact List.getLast_mem hne
  · exact getLast?_max_of_pairwise _ (candIdx_pairwise s sub a b) i h

theorem pyRfind_none {s sub : List Char} {a b : Nat}
    (h : pyRfind s sub a b = none) :
    candIdx s sub a b = [] := by
  unfold pyRfind at h
  exact List.getLast?_eq_none_iff.mp h

-- ### characterization of the boundary slicer

theorem gscb_cases (text : List Char) (cur target tl : Nat) :
    (tl ≤ cur + target ∧
      get_safe_chunk_boundary text cur target tl = (tl, pySlice text cur tl)) ∨
    (cur + target < tl ∧
      ((∃ i, pyRfind text nl2 (searchStart cur target) (cur + target) = some i ∧ cur < i ∧
          get_safe_chunk_boundary text cur target tl = (i + 2, pySlice text cur (i + 2))) ∨
       (gtOpt (pyRfind text nl2 (searchStart cur target) (cur + target)) cur = false ∧
        ∃ j, pyRfind text nl1 (searchStart cur target) (cur + target) = some j ∧ cur < j ∧
          get_safe_chunk_boundary text cur target tl = (j + 1, pySlice text cur (j + 1))) ∨
       (gtOpt (pyRfind text nl2 (searchStart cur target) (cur + target)) cur = false ∧
        gtOpt (pyRfind text nl1 (searchStart cur target) (cur + target)) cur = false ∧
          get_safe_chunk_boundary text cur target tl =
            (cur + target, pySlice text cur (cur + target))))) := by
  simp only [get_safe_chunk_boundary, searchStart]
  by_cases h : tl ≤ min (cur + target) tl
  · left
    have htl : min (cur + target) tl = tl := by omega
    refine ⟨by omega, ?_⟩
    rw [htl]
    simp
  · right
    have hlt : cur + target < tl := by omega
    have hmin : min (cur + target) tl = cur + target := by omega
    refine ⟨hlt, ?_⟩
    rw [hmin]
    simp only [if_neg (by omega : ¬ tl ≤ cur + target)]
    cases hfd : pyRfind text nl2 (max (cur + 9 * target / 10) cur) (cur + target) with
    | some i =>
      by_cases hi : cur < i
      · left
        refine ⟨i, rfl, hi, ?_⟩
        simp [gtOpt, hi]
      · have hg : gtOpt (some i) cur = false := by simp [gtOpt]; omega
        cases hfd1 : pyRfind text nl1 (max (cur + 9 * target / 10) cur) (cur + target) with
        | some j =>
          by_cases hj : cur < j
          · right; left
            refine ⟨hg, j, rfl, hj, ?_⟩
            rw [hg]
            simp [gtOpt, hj]
          · right; right
            refine ⟨hg, by simp [gtOpt]; omega, ?_⟩
            rw [hg]
            simp [gtOpt, hj]
        | none =>
          right; right
          refine ⟨hg, rfl, ?_⟩
          rw [hg]
          simp [gtOpt]
    | none =>
      cases hfd1 : pyRfind text nl1 (max (cur + 9 * target / 10) cur) (cur + target) with
      | some j =>
        by_cases hj : cur < j
        · right; left
          refine ⟨rfl, j, rfl, hj, ?_⟩
          simp [gtOpt, hj]
        · right; right
          refine ⟨rfl, by simp [gtOpt]; omega, ?_⟩
          simp [gtOpt, hj]
      | none =>
        right; right
        refine ⟨rfl, rfl, ?_⟩
        simp [gtOpt]

theorem gscb_fst_gt (text : List Char) (cur target tl : Nat)
    (h1 : cur < tl) (h2 : 1 ≤ target) :
    cur < (get_safe_chunk_boundary text cur target tl).1 := by
  rcases gscb_cases text cur target tl with ⟨hle, heq⟩ | ⟨hlt, hc⟩
  · rw [heq]; exact h1
  · rcases hc with ⟨i, hfd, hi, heq⟩ | ⟨hg, j, hfd, hj, heq⟩ | ⟨hg1, hg2, heq⟩ <;>
      rw [heq] <;> simp <;> omega

theorem stepCursor_gt (text : List Char) (cur : Nat) (ob : OracleIter)
    (h : cur < text.length) :
    cur < stepCursor text cur ob := by
  have he : cur < windowEnd text cur ob.resliced := by
    unfold windowEnd
    split
    · exact gscb_fst_gt text cur 32000 text.length h (by omega)
    · exact gscb_fst_gt text cur chunk_size text.length h (by simp [chunk_size])
  unfold stepCursor
  cases hob : ob.outcome with
  | failed => exact he
  | parsed lp se =>
    simp only []
    split
    · exact he
    · omega

theorem cursorSeq_reaches (text : List Char) (obs : Nat → OracleIter) :
    ∀ k, k ≤ cursorSeq text obs k ∨ text.length ≤ cursorSeq text obs k := by
  intro k
  induction k with
  | zero => left; exact Nat.le_refl 0
  | succ k ih =>
    by_cases hk : cursorSeq text obs k < text.length
    · have hstep := stepCursor_gt text (cursorSeq text obs k) (obs k) hk
      have heq : cursorSeq text obs (k + 1) = stepCursor text (cursorSeq text obs k) (obs k) := by
        simp [cursorSeq, hk]
      rcases ih with h | h
      · left; omega
      · omega
    · have heq : cursorSeq text obs (k + 1) = cursorSeq text obs k := by
        simp [cursorSeq, hk]
      right; omega

/-- Claim C1: for every source text and every oracle behaviour (parse
failures, re-sliced retries, responses with or without a last processed
paragraph, found in the text or not), the rolling cursor strictly
increases on every iteration taken while it is inside the text, the
loop is finished after at most `text.length` iterations, and whenever
the computed next position does not exceed the current cursor the step
is forced to the window end. -/
theorem C1_cursor_progress (text : List Char) (obs : Nat → OracleIter) :
    (∀ k, cursorSeq text obs k < text.length →
      cursorSeq text obs k < cursorSeq text obs (k + 1))
    ∧ text.length ≤ cursorSeq text obs text.length
    ∧ (∀ cur lp se r, computedNextPos text cur (windowEnd text cur r) lp ≤ cur →
        stepCursor text cur ⟨r, .parsed lp se⟩ = windowEnd text cur r) := by
  refine ⟨?_, ?_, ?_⟩
  · intro k hk
    have hstep := stepCursor_gt text (cursorSeq text obs k) (obs k) hk
    have hEq : cursorSeq text obs (k + 1) = stepCursor text (cursorSeq text obs k) (obs k) := by
      simp [cursorSeq, hk]
    omega
  · rcases cursorSeq_reaches text obs text.length with h | h
    · by_cases hfin : cursorSeq text obs text.length < text.length
      · omega
      · omega
    · exact h
  · intro cur lp se r hle
    simp [stepCursor, hle]

/-- Witness for C1 at a concrete text and the always-failing oracle. -/
theorem C1_cursor_progress_witness :
    cursorSeq ("hello world".data) (fun _ => ⟨false, .failed⟩) 0 <
      cursorSeq ("hello world".data) (fun _ => ⟨false, .failed⟩) 1 :=
  (C1_cursor_progress ("hello world".data) (fun _ => ⟨false, .failed⟩)).1 0 (by decide)

theorem nl2_length : nl2.length = 2 := rfl

theorem nl1_length : nl1.length = 1 := rfl

/-- Claim C2 (amended): for every text, cursor inside the text and
positive target size, the slicer returns an end strictly beyond the
cursor together with exactly the slice up to that end; at the tail it
returns the remainder; otherwise the window is at most the target, it
ends two characters after the greatest double newline of the search
region when one lies beyond the cursor, and it has exactly the raw
target length only when no usable boundary was found or the boundary
cut lands flush on the raw cutoff. -/
theorem C2_boundary_slicer (text : List Char) (cur target : Nat)
    (h1 : cur < text.length) (h2 : 1 ≤ target) :
    cur < (get_safe_chunk_boundary text cur target text.length).1
    ∧ (get_safe_chunk_boundary text cur target text.length).2 =
        pySlice text cur (get_safe_chunk_boundary text cur target text.length).1
    ∧ (text.length ≤ cur + target →
        get_safe_chunk_boundary text cur target text.length =
          (text.length, pySlice text cur text.length))
    ∧ (cur + target < text.length →
        (get_safe_chunk_boundary text cur target text.length).1 ≤ cur + target
        ∧ (∀ i, pyRfind text nl2 (searchStart cur target) (cur + target) = some i →
            cur < i →
            (get_safe_chunk_boundary text cur target text.length).1 = i + 2
            ∧ matchAt text nl2 i = true
            ∧ ∀ j, searchStart cur target ≤ j → j + 2 ≤ cur + target →
                matchAt text nl2 j = true → j ≤ i)
        ∧ ((get_safe_chunk_boundary text cur target text.length).1 = cur + target →
            (gtOpt (pyRfind text nl2 (searchStart cur target) (cur + target)) cur = false ∧
             gtOpt (pyRfind text nl1 (searchStart cur target) (cur + target)) cur = false)
            ∨ pyRfind text nl2 (searchStart cur target) (cur + target) =
                some (cur + target - 2)
            ∨ (gtOpt (pyRfind text nl2 (searchStart cur target) (cur + target)) cur = false ∧
               pyRfind text nl1 (searchStart cur target) (cur + target) =
                 some (cur + target - 1)))) := by
  refine ⟨gscb_fst_gt text cur target text.length h1 h2, ?_, ?_, ?_⟩
  · rcases gscb_cases text cur target text.length with ⟨hle, heq⟩ | ⟨hlt, hc⟩
    · rw [heq]
    · rcases hc with ⟨i, hfd, hi, heq⟩ | ⟨hg, j, hfd, hj, heq⟩ | ⟨hg1, hg2, heq⟩ <;> rw [heq]
  · intro hle
    rcases gscb_cases text cur target text.length with ⟨_, heq⟩ | ⟨hlt, _⟩
    · exact heq
    · omega
  · intro hlt
    have hmin : min (cur + target) text.length = cur + target := by omega
    rcases gscb_cases text cur target text.length with ⟨hle, _⟩ | ⟨_, hc⟩
    · omega
    rcases hc with ⟨i, hfd, hi, heq⟩ | ⟨hg, j, hfd, hj, heq⟩ | ⟨hg1, hg2, heq⟩
    · -- paragraph-boundary branch
      obtain ⟨hmem, hmax⟩ := pyRfind_spec hfd
      obtain ⟨hss, hbound, hmatch⟩ := mem_candIdx.mp hmem
      rw [nl2_length] at hbound
      rw [hmin] at hbound
      refine ⟨by rw [heq]; simpa using hbound, ?_, ?_⟩
      · intro i0 hfd0 hi0
        rw [hfd] at hfd0
        injection hfd0 with hii
        subst hii
        refine ⟨by rw [heq], hmatch, ?_⟩
        intro j hj1 hj2 hj3
        exact hmax j (mem_candIdx.mpr ⟨hj1, by rw [nl2_length, hmin]; omega, hj3⟩)
      · intro hraw
        rw [heq] at hraw
        simp at hraw
        right; left
        rw [hfd]
        congr 1
        omega
    · -- line-boundary branch
      obtain ⟨hmem, hmax⟩ := pyRfind_spec hfd
      obtain ⟨ha, hbound, hmatch⟩ := mem_candIdx.mp hmem
      rw [nl1_length] at hbound
      rw [hmin] at hbound
      refine ⟨by rw [heq]; simpa using hbound, ?_, ?_⟩
      · intro i0 hfd0 hi0
        exfalso
        cases hpb : pyRfind text nl2 (searchStart cur target) (cur + target) with
        | none => rw [hpb] at hfd0; exact Option.noConfusion hfd0
        | some v =>
          rw [hpb] at hg hfd0
          injection hfd0 with hv
          subst hv
          simp [gtOpt] at hg
          omega
      · intro hraw
        rw [heq] at hraw
        simp at hraw
        right; right
        refine ⟨hg, ?_⟩
        rw [hfd]
        congr 1
        omega
    · -- raw-cutoff branch
      refine ⟨by rw [heq], ?_, ?_⟩
      · intro i0 hfd0 hi0
        exfalso
        rw [hfd0] at hg1
        simp [gtOpt] at hg1
        omega
      · intro _
        left
        exact ⟨hg1, hg2⟩

/-- Witness for C2 at a concrete text, cursor and target. -/
theorem C2_boundary_slicer_witness :
    0 < (get_safe_chunk_boundary ("ab\n\ncd".data) 0 3 ("ab\n\ncd".data).length).1 :=
  (C2_boundary_slicer ("ab\n\ncd".data) 0 3 (by decide) (by decide)).1

/-- Counterexample for C2 as stated: with a paragraph boundary sitting
flush against the raw cutoff, the window length equals the raw target
although a paragraph boundary is present (and found) in the last 10
percent of the window, refuting the claim that the raw-target length
occurs only when no boundary exists there. -/
theorem C2_counterexample :
    (get_safe_chunk_boundary
        (List.replicate 18 'a' ++ ['\n', '\n'] ++ List.replicate 20 'b') 0 20
        (List.replicate 18 'a' ++ ['\n', '\n'] ++ List.replicate 20 'b').length).1 = 20
    ∧ pyRfind (List.replicate 18 'a' ++ ['\n', '\n'] ++ List.replicate 20 'b')
        nl2 (searchStart 0 20) 20 = some 18
    ∧ 0 < 18 := by decide

theorem closeLoop_eq (ch : Char) :
    ∀ (n opn cls : Nat), opn - cls = n →
      ∀ res, closeLoop res ch opn cls = res ++ List.replicate n ch := by
  intro n
  induction n with
  | zero =>
    intro opn cls h res
    rw [closeLoop, if_neg (by omega)]
    simp
  | succ k ih =>
    intro opn cls h res
    rw [closeLoop, if_pos (by omega), ih opn (cls + 1) (by omega)]
    rw [List.replicate_succ]
    simp

theorem scanInString_parity (s : List Char) :
    ∀ esc inS, scanInString s esc inS = (inS != (unescapedQuotes s esc % 2 == 1)) := by
  induction s with
  | nil =>
    intro esc inS
    cases inS <;> simp [scanInString, unescapedQuotes]
  | cons c cs ih =>
    intro esc inS
    cases esc with
    | true => simp [scanInString, unescapedQuotes, ih]
    | false =>
      by_cases hb : c = '\\'
      · simp [scanInString, unescapedQuotes, hb, ih]
      · by_cases hq : c = '"'
        · simp only [scanInString, unescapedQuotes, if_neg hb, if_pos hq, ih]
          have hpar : unescapedQuotes cs false % 2 = 0 ∨ unescapedQuotes cs false % 2 = 1 := by
            omega
          rcases hpar with h | h <;> cases inS <;>
            simp [Nat.add_mod, h]
        · simp [scanInString, unescapedQuotes, hb, hq, ih]

theorem scanInString_blank (s : List Char) (h : ∀ c ∈ s, pyIsSpace c = true) :
    ∀ esc inS, scanInString s esc inS = inS := by
  induction s with
  | nil => intro esc inS; rfl
  | cons c cs ih =>
    intro esc inS
    have hc : pyIsSpace c = true := h c (List.mem_cons_self _ _)
    have hrest : ∀ x ∈ cs, pyIsSpace x = true := fun x hx => h x (List.mem_cons_of_mem _ hx)
    have hnb : c ≠ '\\' := by
      intro he; subst he; simp [pyIsSpace] at hc
    have hnq : c ≠ '"' := by
      intro he; subst he; simp [pyIsSpace] at hc
    cases esc with
    | true => simp [scanInString, ih hrest]
    | false => simp [scanInString, hnb, hnq, ih hrest]

theorem count_blank (s : List Char) (h : ∀ c ∈ s, pyIsSpace c = true)
    (c : Char) (hc : pyIsSpace c = false) : s.count c = 0 := by
  rw [List.count_eq_zero]
  intro hmem
  rw [h c hmem] at hc
  exact Bool.noConfusion hc

theorem repair_structure (s : List Char) :
    repair_truncated_json s =
      s ++ (if scanInString s false false then ['"'] else [])
        ++ List.replicate (s.count '[' - s.count ']') ']'
        ++ List.replicate (s.count '{' - s.count '}') '}' := by
  unfold repair_truncated_json
  by_cases hb : isBlank s = true
  · rw [if_pos hb]
    have hall : ∀ c ∈ s, pyIsSpace c = true := by
      intro c hc
      exact List.all_eq_true.mp hb c hc
    rw [scanInString_blank s hall false false]
    rw [count_blank s hall '[' (by decide), count_blank s hall '{' (by decide)]
    simp
  · rw [if_neg hb]
    dsimp only
    rw [closeLoop_eq ']' (s.count '[' - s.count ']') _ _ rfl]
    rw [closeLoop_eq '}' (s.count '{' - s.count '}') _ _ rfl]
    by_cases hin : scanInString s false false = true
    · rw [if_pos hin, if_pos hin]
      try simp [List.append_assoc]
    · rw [if_neg hin, if_neg hin]
      try simp [List.append_assoc]

/-- Claim C10: the repair appends a closing quote exactly when the
response ends inside an unterminated string literal (odd count of
unescaped quotes), then appends exactly the missing closing brackets
and braces; under the stated count hypotheses, brackets and braces are
balanced in the output, and a balanced response not inside a string is
returned unchanged. -/
theorem C10_repair_truncated_json (s : List Char)
    (h1 : s.count ']' ≤ s.count '[') (h2 : s.count '}' ≤ s.count '{') :
    (scanInString s false false = true ↔ unescapedQuotes s false % 2 = 1)
    ∧ repair_truncated_json s =
        s ++ (if scanInString s false false then ['"'] else [])
          ++ List.replicate (s.count '[' - s.count ']') ']'
          ++ List.replicate (s.count '{' - s.count '}') '}'
    ∧ (repair_truncated_json s).count '[' = (repair_truncated_json s).count ']'
    ∧ (repair_truncated_json s).count '{' = (repair_truncated_json s).count '}'
    ∧ (scanInString s false false = false → s.count '[' = s.count ']' →
        s.count '{' = s.count '}' → repair_truncated_json s = s) := by
  have hstr := repair_structure s
  refine ⟨?_, hstr, ?_, ?_, ?_⟩
  · rw [scanInString_parity s false false]
    constructor
    · intro h
      simp at h
      omega
    · intro h
      simp [h]
  · rw [hstr]
    simp only [List.count_append, List.count_replicate]
    by_cases hin : scanInString s false false = true <;>
      simp [hin, List.count_replicate] <;> omega
  · rw [hstr]
    simp only [List.count_append, List.count_replicate]
    by_cases hin : scanInString s false false = true <;>
      simp [hin, List.count_replicate] <;> omega
  · intro hsc hbk hbr
    rw [hstr, hsc, hbk, hbr]
    simp

/-- Witness for C10 at a concrete truncated response. -/
theorem C10_repair_truncated_json_witness :
    (repair_truncated_json ['{', '"', 'a', '"', ':', ' ', '[', '1']).count '[' =
      (repair_truncated_json ['{', '"', 'a', '"', ':', ' ', '[', '1']).count ']' :=
  (C10_repair_truncated_json ['{', '"', 'a', '"', ':', ' ', '[', '1']
    (by decide) (by decide)).2.2.1

/-- Claim C4: the classifier obeys the fixed precedence Reasoning over
ActionPlanner over Global over Specific: any reasoning keyword forces
Reasoning regardless of other keywords; ActionPlanner holds exactly for
an action keyword with no reasoning keyword and no artifact follow-up
(follow-up keywords suppress only when an artifact exists); Global
holds exactly for a global keyword when neither former case holds; and
everything else is Specific. -/
theorem C4_intent_classifier (q : String) (art : Bool) :
    (classify q art = .Reasoning ↔
      containsAny (toLowerStr q) reasoning_intent_keywords = true)
    ∧ (classify q art = .ActionPlanner ↔
        (containsAny (toLowerStr q) action_planner_keywords = true
         ∧ containsAny (toLowerStr q) reasoning_intent_keywords = false
         ∧ ¬(art = true ∧ containsAny (toLowerStr q) follow_up_keywords = true)))
    ∧ (classify q art = .Global ↔
        (containsAny (toLowerStr q) global_intent_keywords = true
         ∧ containsAny (toLowerStr q) reasoning_intent_keywords = false
         ∧ ¬(containsAny (toLowerStr q) action_planner_keywords = true
             ∧ ¬(art = true ∧ containsAny (toLowerStr q) follow_up_keywords = true))))
    ∧ (art = false → containsAny (toLowerStr q) action_planner_keywords = true →
        containsAny (toLowerStr q) reasoning_intent_keywords = false →
        classify q art = .ActionPlanner) := by
  cases hR : containsAny (toLowerStr q) reasoning_intent_keywords <;>
    cases hA : containsAny (toLowerStr q) action_planner_keywords <;>
      cases hG : containsAny (toLowerStr q) global_intent_keywords <;>
        cases hF : containsAny (toLowerStr q) follow_up_keywords <;>
          cases art <;>
            simp [classify, hR, hA, hG, hF]

/-- Witness for C4: a query carrying both a reasoning keyword and an
action-planner keyword classifies as Reasoning. -/
theorem C4_intent_classifier_witness :
    classify "compare the plan options" false = .Reasoning :=
  (C4_intent_classifier "compare the plan options" false).1.mpr (by decide)

theorem md5Bytes_length (msg : List Nat) : (md5Bytes msg).length = 16 := by
  unfold md5Bytes
  simp [wordLE]

theorem flatten_byteHex_length (l : List Nat) :
    ((l.map byteHex).flatten).length = 2 * l.length := by
  induction l with
  | nil => simp
  | cons b bs ih =>
    simp [byteHex, ih]
    omega

theorem hexdigest_length (msg : List Nat) : (hexdigest msg).length = 32 := by
  unfold hexdigest
  rw [flatten_byteHex_length, md5Bytes_length]

theorem hexChar_mem (n : Nat) : hexChar n ∈ hexDigits := by
  rcases Nat.lt_or_ge n 16 with h | h
  · interval_cases n <;> decide
  · have hlen : hexDigits.length ≤ n := by
      simp [hexDigits]
      omega
    rw [hexChar, List.getD_eq_default _ _ hlen]
    decide

theorem hexdigest_chars (msg : List Nat) : ∀ c ∈ hexdigest msg, c ∈ hexDigits := by
  intro c hc
  unfold hexdigest at hc
  rw [List.mem_flatten] at hc
  obtain ⟨l, hl, hcl⟩ := hc
  rw [List.mem_map] at hl
  obtain ⟨b, _, rfl⟩ := hl
  simp [byteHex] at hcl
  rcases hcl with h | h
  · exact h ▸ hexChar_mem _
  · exact h ▸ hexChar_mem _

/-- Claim C6: the citation token is a pure deterministic function of the
child unit identifier; it is the `#chk_` marker followed by the first 8
hexadecimal characters of the identifier hash (13 characters in all,
hash part drawn from the hex alphabet); and two identifiers receive the
same token exactly when their truncated hashes collide, so distinct
identifiers yield distinct tokens up to hash collisions. -/
theorem C6_citation_token (a b : String) :
    generate_chunk_id a = generate_chunk_id a
    ∧ (generate_chunk_id a).data = "#chk_".data ++ (hexdigest (strBytes a)).take 8
    ∧ (generate_chunk_id a).data.length = 13
    ∧ (∀ c ∈ (generate_chunk_id a).data.drop 5, c ∈ hexDigits)
    ∧ (generate_chunk_id a = generate_chunk_id b ↔
        (hexdigest (strBytes a)).take 8 = (hexdigest (strBytes b)).take 8) := by
  have hdata : ∀ s : String,
      (generate_chunk_id s).data = "#chk_".data ++ (hexdigest (strBytes s)).take 8 := by
    intro s
    rfl
  have htake : ∀ s : String, ((hexdigest (strBytes s)).take 8).length = 8 := by
    intro s
    rw [List.length_take, hexdigest_length]
    decide
  refine ⟨rfl, hdata a, ?_, ?_, ?_⟩
  · rw [hdata a]
    simp [htake a]
  · intro c hc
    rw [hdata a] at hc
    have h5 : ("#chk_".data).length = 5 := by decide
    rw [← h5, List.drop_left] at hc
    exact hexdigest_chars _ c (List.mem_of_mem_take hc)
  · constructor
    · intro h
      have hd := congrArg String.data h
      rw [hdata a, hdata b] at hd
      exact List.append_cancel_left hd
    · intro h
      have : (generate_chunk_id a).data = (generate_chunk_id b).data := by
        rw [hdata a, hdata b, h]
      cases ha : generate_chunk_id a with
      | mk la =>
        cases hb2 : generate_chunk_id b with
        | mk lb =>
          rw [ha, hb2] at this
          simp at this
          rw [this]

set_option maxRecDepth 40000 in
/-- Witness for C6: the token of a concrete identifier has the documented
marker and hash form (cross-checked against the reference MD5 digest of
the string abc), and a differing identifier yields a different token. -/
theorem C6_citation_token_witness :
    generate_chunk_id "abc" = "#chk_90015098"
    ∧ generate_chunk_id "abc" ≠ generate_chunk_id "abd" := by
  constructor
  · decide
  · intro h
    have := (C6_citation_token "abc" "abd").2.2.2.2.mp h
    exact absurd this (by decide)

theorem last_true_mono {t0 : List (Layer × Bool)} {l0 : Layer} {b : Bool}
    (hf : ∀ e ∈ t0, e.2 = false) :
    ∀ (p : List (Layer × Bool)) (l : Layer) (q : List (Layer × Bool)),
      t0 ++ [(l0, b)] = p ++ (l, true) :: q → q = [] := by
  intro p l q h
  rcases List.eq_nil_or_concat q with hq | ⟨q1, z, rfl⟩
  · exact hq
  · exfalso
    have h2 : t0 ++ [(l0, b)] = (p ++ (l, true) :: q1) ++ [z] := by
      rw [h]
      simp
    have h3 := List.append_inj' h2 rfl
    have hmem : (l, true) ∈ t0 := by
      rw [h3.1]
      exact List.mem_append_right _ (List.mem_cons_self _ _)
    have := hf _ hmem
    simp at this

theorem pathA_trace_spec {alpha : Type} (idx : SearchIndex alpha) (mt mc : Nat) :
    ∃ t0 x, (pathARetrieve idx mt mc).2 = t0 ++ [x]
      ∧ (∀ e ∈ t0, e.2 = false)
      ∧ (∀ b, (Layer.vectorRelaxed, b) ∈ t0 ++ [x] → 30 < mt) := by
  unfold pathARetrieve
  cases hh : idx.hybrid with
  | ok cs =>
    simp only [relaxedRetry]
    by_cases hc1 : (cs.isEmpty && decide (30 < mt)) = true
    · have hmt : 30 < mt := by
        rw [Bool.and_eq_true] at hc1
        simpa using hc1.2
      have hce : cs.isEmpty = true := by
        rw [Bool.and_eq_true] at hc1
        exact hc1.1
      rw [if_pos hc1]
      cases hv : idx.vector 30 with
      | ok cs2 =>
        by_cases h2 : cs2.isEmpty
        · refine ⟨[(.hybridRanked, !cs.isEmpty), (.vectorRelaxed, !cs2.isEmpty)],
            (.unrankedAny, !(anyRowsAccum idx.anyRows mc).isEmpty), ?_, ?_, ?_⟩
          · simp [h2]
          · intro e he
            simp [hce, h2] at he
            rcases he with he | he <;> simp [he]
          · intro b _
            exact hmt
        · refine ⟨[(.hybridRanked, !cs.isEmpty)], (.vectorRelaxed, !cs2.isEmpty), ?_, ?_, ?_⟩
          · simp [h2]
          · intro e he
            simp [hce] at he
            simp [he]
          · intro b _
            exact hmt
      | error _ =>
        refine ⟨[(.hybridRanked, !cs.isEmpty), (.vectorRelaxed, false)],
          (.unrankedAny, !(anyRowsAccum idx.anyRows mc).isEmpty), ?_, ?_, ?_⟩
        · simp [hce]
        · intro e he
          simp [hce] at he
          rcases he with he | he <;> simp [he]
        · intro b _
          exact hmt
    · rw [if_neg hc1]
      by_cases hce : cs.isEmpty
      · have hmt : ¬ 30 < mt := by
          intro h
          exact hc1 (by simp [hce, h])
        refine ⟨[(.hybridRanked, !cs.isEmpty)],
          (.unrankedAny, !(anyRowsAccum idx.anyRows mc).isEmpty), ?_, ?_, ?_⟩
        · simp [hce]
        · intro e he
          simp [hce] at he
          simp [he]
        · intro b hb
          exfalso
          simp [hce] at hb
      · refine ⟨[], (.hybridRanked, !cs.isEmpty), ?_, ?_, ?_⟩
        · simp [hce]
        · intro e he
          simp at he
        · intro b hb
          simp at hb
  | error _ =>
    cases hv : idx.vector mt with
    | ok cs =>
      simp only [relaxedRetry]
      by_cases hc1 : (cs.isEmpty && decide (30 < mt)) = true
      · have hmt : 30 < mt := by
          rw [Bool.and_eq_true] at hc1
          simpa using hc1.2
        have hce : cs.isEmpty = true := by
          rw [Bool.and_eq_true] at hc1
          exact hc1.1
        rw [if_pos hc1]
        cases hv2 : idx.vector 30 with
        | ok cs2 =>
          by_cases h2 : cs2.isEmpty
          · refine ⟨[(.hybridRanked, false), (.vectorRanked, !cs.isEmpty),
              (.vectorRelaxed, !cs2.isEmpty)],
              (.unrankedAny, !(anyRowsAccum idx.anyRows mc).isEmpty), ?_, ?_, ?_⟩
            · simp [h2]
            · intro e he
              simp [hce, h2] at he
              rcases he with he | he | he <;> simp [he]
            · intro b _
              exact hmt
          · refine ⟨[(.hybridRanked, false), (.vectorRanked, !cs.isEmpty)],
              (.vectorRelaxed, !cs2.isEmpty), ?_, ?_, ?_⟩
            · simp [h2]
            · intro e he
              simp [hce] at he
              rcases he with he | he <;> simp [he]
            · intro b _
              exact hmt
        | error _ =>
          refine ⟨[(.hybridRanked, false), (.vectorRanked, !cs.isEmpty),
            (.vectorRelaxed, false)],
            (.unrankedAny, !(anyRowsAccum idx.anyRows mc).isEmpty), ?_, ?_, ?_⟩
          · simp [hce]
          · intro e he
            simp [hce] at he
            rcases he with he | he | he <;> simp [he]
          · intro b _
            exact hmt
      · rw [if_neg hc1]
        by_cases hce : cs.isEmpty
        · refine ⟨[(.hybridRanked, false), (.vectorRanked, !cs.isEmpty)],
            (.unrankedAny, !(anyRowsAccum idx.anyRows mc).isEmpty), ?_, ?_, ?_⟩
          · simp [hce]
          · intro e he
            simp [hce] at he
            rcases he with he | he <;> simp [he]
          · intro b hb
            exfalso
            simp [hce] at hb
        · refine ⟨[(.hybridRanked, false)], (.vectorRanked, !cs.isEmpty), ?_, ?_, ?_⟩
          · simp [hce]
          · intro e he
            simp at he
            simp [he]
          · intro b hb
            simp at hb
    | error _ =>
      by_cases hce : ((idx.withEmbedding.foldl (fun a r => a ++ r) []).take mc).isEmpty
      · refine ⟨[(.hybridRanked, false), (.vectorRanked, false),
          (.unrankedEmbedded, !((idx.withEmbedding.foldl (fun a r => a ++ r) []).take mc).isEmpty)],
          (.unrankedAny, !(anyRowsAccum idx.anyRows mc).isEmpty), ?_, ?_, ?_⟩
        · simp [hce]
        · intro e he
          simp [hce] at he
          rcases he with he | he | he <;> simp [he]
        · intro b hb
          exfalso
          simp [hce] at hb
      · refine ⟨[(.hybridRanked, false), (.vectorRanked, false)],
          (.unrankedEmbedded, !((idx.withEmbedding.foldl (fun a r => a ++ r) []).take mc).isEmpty),
          ?_, ?_, ?_⟩
        · simp [hce]
        · intro e he
          simp at he
          rcases he with he | he <;> simp [he]
        · intro b hb
          simp at hb

/-- Claim C5: in the Path A retrieval fallback chain, a layer that
returns a non-empty result is the last layer invoked (so later layers
are never reached), and the relaxed threshold-0.3 retry is invoked only
when the strategy threshold exceeds 0.3 (every layer preceding any
invoked layer yielded an empty result or raised, by the first part). -/
theorem C5_fallback_chain {alpha : Type} (idx : SearchIndex alpha) (mt mc : Nat) :
    (∀ (p : List (Layer × Bool)) (l : Layer) (q : List (Layer × Bool)),
      (pathARetrieve idx mt mc).2 = p ++ (l, true) :: q → q = [])
    ∧ (∀ b, (Layer.vectorRelaxed, b) ∈ (pathARetrieve idx mt mc).2 → 30 < mt) := by
  obtain ⟨t0, x, heq, hf, hrel⟩ := pathA_trace_spec idx mt mc
  constructor
  · intro p l q h
    rcases x with ⟨l0, b⟩
    exact last_true_mono hf p l q (heq ▸ h)
  · intro b hb
    exact hrel b (heq ▸ hb)

/-- Witness for C5: on a stub index whose hybrid layer returns one row,
the trace stops right after that layer and the theorem applies. -/
theorem C5_fallback_chain_witness :
    (pathARetrieve
        (SearchIndex.mk (Except.ok [0]) (fun _ => Except.ok []) [] [] : SearchIndex Nat)
        70 5).2 = [(Layer.hybridRanked, true)]
    ∧ ([] : List (Layer × Bool)) = [] :=
  ⟨by decide,
   (C5_fallback_chain
     (SearchIndex.mk (Except.ok [0]) (fun _ => Except.ok []) [] [] : SearchIndex Nat)
     70 5).1 [] Layer.hybridRanked [] (by decide)⟩

theorem enhanceGo_length (fetch : String → ParentFetch) :
    ∀ (chunks : List RetChunk) (seen : List String),
      (enhanceGo fetch chunks seen).length = chunks.length := by
  intro chunks
  induction chunks with
  | nil => intro seen; rfl
  | cons c rest ih =>
    intro seen
    simp [enhanceGo, ih]

theorem enhanceGo_get? (fetch : String → ParentFetch) :
    ∀ (chunks : List RetChunk) (seen : List String) (k : Nat) (c : RetChunk),
      chunks.get? k = some c →
      (enhanceGo fetch chunks seen).get? k =
        some (processOne fetch c (seenAfter fetch seen (chunks.take k))) := by
  intro chunks
  induction chunks with
  | nil => intro seen k c h; simp at h
  | cons c0 rest ih =>
    intro seen k c h
    cases k with
    | zero =>
      rw [List.get?_cons_zero] at h
      injection h with h
      subst h
      simp [enhanceGo, seenAfter]
    | succ k =>
      rw [List.get?_cons_succ] at h
      have := ih (seenStep fetch seen c0) k c h
      simpa [enhanceGo, seenAfter] using this

theorem seenAfter_mem (fetch : String → ParentFetch) :
    ∀ (pre : List RetChunk) (seen : List String) (p : String),
      p ∈ seenAfter fetch seen pre ↔
        p ∈ seen ∨ (p ≠ "" ∧ (∃ ft ct st, fetch p = .found ft ct st)
          ∧ ∃ c ∈ pre, c.parent_text = "" ∧ c.parent_id = p) := by
  intro pre
  induction pre with
  | nil => simp [seenAfter]
  | cons c0 rest ih =>
    intro seen p
    have hstep : seenAfter fetch seen (c0 :: rest) =
        seenAfter fetch (seenStep fetch seen c0) rest := by
      simp [seenAfter]
    rw [hstep, ih]
    unfold seenStep
    by_cases hpt : c0.parent_text ≠ ""
    · rw [if_pos hpt]
      constructor
      · rintro (h | h)
        · exact Or.inl h
        · exact Or.inr ⟨h.1, h.2.1, by
            obtain ⟨c, hc, hcc⟩ := h.2.2
            exact ⟨c, List.mem_cons_of_mem _ hc, hcc⟩⟩
      · rintro (h | ⟨hp, hfp, c, hc, hcc⟩)
        · exact Or.inl h
        · rcases List.mem_cons.mp hc with rfl | hc2
          · exact absurd hcc.1 (by simpa using hpt)
          · exact Or.inr ⟨hp, hfp, c, hc2, hcc⟩
    · rw [if_neg hpt]
      push_neg at hpt
      by_cases hcond : c0.parent_id ≠ "" ∧ c0.parent_id ∉ seen
      · rw [if_pos hcond]
        cases hf : fetch c0.parent_id with
        | found ft ct st =>
          constructor
          · rintro (h | h)
            · rcases List.mem_cons.mp h with rfl | h2
              · exact Or.inr ⟨hcond.1, ⟨ft, ct, st, hf⟩,
                  c0, List.mem_cons_self _ _, hpt, rfl⟩
              · exact Or.inl h2
            · exact Or.inr ⟨h.1, h.2.1, by
                obtain ⟨c, hc, hcc⟩ := h.2.2
                exact ⟨c, List.mem_cons_of_mem _ hc, hcc⟩⟩
          · rintro (h | ⟨hp, hfp, c, hc, hcc⟩)
            · exact Or.inl (List.mem_cons_of_mem _ h)
            · rcases List.mem_cons.mp hc with rfl | hc2
              · exact Or.inl (hcc.2 ▸ List.mem_cons_self _ _)
              · exact Or.inr ⟨hp, hfp, c, hc2, hcc⟩
        | missing =>
          constructor
          · rintro (h | h)
            · exact Or.inl h
            · exact Or.inr ⟨h.1, h.2.1, by
                obtain ⟨c, hc, hcc⟩ := h.2.2
                exact ⟨c, List.mem_cons_of_mem _ hc, hcc⟩⟩
          · rintro (h | ⟨hp, ⟨ft, ct, st, hfp⟩, c, hc, hcc⟩)
            · exact Or.inl h
            · rcases List.mem_cons.mp hc with rfl | hc2
              · rw [hcc.2] at hf
                rw [hf] at hfp
                exact ParentFetch.noConfusion hfp
              · exact Or.inr ⟨hp, ⟨ft, ct, st, hfp⟩, c, hc2, hcc⟩
        | failed =>
          constructor
          · rintro (h | h)
            · exact Or.inl h
            · exact Or.inr ⟨h.1, h.2.1, by
                obtain ⟨c, hc, hcc⟩ := h.2.2
                exact ⟨c, List.mem_cons_of_mem _ hc, hcc⟩⟩
          · rintro (h | ⟨hp, ⟨ft, ct, st, hfp⟩, c, hc, hcc⟩)
            · exact Or.inl h
            · rcases List.mem_cons.mp hc with rfl | hc2
              · rw [hcc.2] at hf
                rw [hf] at hfp
                exact ParentFetch.noConfusion hfp
              · exact Or.inr ⟨hp, ⟨ft, ct, st, hfp⟩, c, hc2, hcc⟩
      · rw [if_neg hcond]
        rw [Decidable.not_and_iff_or_not] at hcond
        constructor
        · rintro (h | h)
          · exact Or.inl h
          · exact Or.inr ⟨h.1, h.2.1, by
              obtain ⟨c, hc, hcc⟩ := h.2.2
              exact ⟨c, List.mem_cons_of_mem _ hc, hcc⟩⟩
        · rintro (h | ⟨hp, hfp, c, hc, hcc⟩)
          · exact Or.inl h
          · rcases List.mem_cons.mp hc with rfl | hmem2
            · rcases hcond with hc1 | hcN
              · have hpe : c.parent_id = "" := not_not.mp hc1
                rw [hcc.2] at hpe
                exact absurd hpe hp
              · have hpm : c.parent_id ∈ seen := not_not.mp hcN
                rw [hcc.2] at hpm
                exact Or.inl hpm
            · exact Or.inr ⟨hp, hfp, c, hmem2, hcc⟩

/-- Claim C7 (amended): the context assembler keeps one output per input
in order with the reference text preserved; a unit with prefetched
parent text uses it; a unit without a parent reference, or whose parent
lookup misses or fails, falls back to its own text; and for a unit whose
parent is found in the store, the parent full text is used exactly when
no earlier retrieved unit referenced the same parent (the seen-parent
deduplication makes later units sharing a parent fall back to their own
text). -/
theorem C7_parent_context (fetch : String → ParentFetch) (chunks : List RetChunk) :
    (get_parent_context_for_chunks fetch chunks).length = chunks.length
    ∧ ∀ k c, chunks.get? k = some c →
        ∃ e, (get_parent_context_for_chunks fetch chunks).get? k = some e
          ∧ e.reference_text = c.text
          ∧ (c.parent_text ≠ "" → e.context_text = c.parent_text)
          ∧ (c.parent_text = "" → c.parent_id = "" → e.context_text = c.text)
          ∧ (∀ ft ct st, c.parent_text = "" → c.parent_id ≠ "" →
              fetch c.parent_id = .found ft ct st →
              ((¬ ∃ cj ∈ chunks.take k, cj.parent_text = "" ∧ cj.parent_id = c.parent_id) →
                e.context_text = ft)
              ∧ ((∃ cj ∈ chunks.take k, cj.parent_text = "" ∧ cj.parent_id = c.parent_id) →
                e.context_text = c.text))
          ∧ (c.parent_text = "" → c.parent_id ≠ "" →
              fetch c.parent_id = .missing ∨ fetch c.parent_id = .failed →
              e.context_text = c.text) := by
  refine ⟨enhanceGo_length fetch chunks [], ?_⟩
  intro k c h
  have hget := enhanceGo_get? fetch chunks [] k c h
  refine ⟨processOne fetch c (seenAfter fetch [] (chunks.take k)), hget, ?_, ?_, ?_, ?_, ?_⟩
  · unfold processOne ownContext
    split
    · rfl
    · split
      · cases fetch c.parent_id <;> rfl
      · rfl
  · intro hpt
    unfold processOne
    rw [if_pos hpt]
  · intro hpt hpid
    unfold processOne
    rw [if_neg (by simpa using hpt), if_neg (by simp [hpid])]
    rfl
  · intro ft ct st hpt hpid hf
    have hmem := seenAfter_mem fetch (chunks.take k) [] c.parent_id
    simp only [List.not_mem_nil, false_or] at hmem
    constructor
    · intro hno
      have hnotin : c.parent_id ∉ seenAfter fetch [] (chunks.take k) := by
        rw [hmem]
        rintro ⟨_, _, cj, hcj, hcc⟩
        exact hno ⟨cj, hcj, hcc⟩
      unfold processOne
      rw [if_neg (by simpa using hpt), if_pos ⟨hpid, hnotin⟩, hf]
    · intro hyes
      have hin : c.parent_id ∈ seenAfter fetch [] (chunks.take k) := by
        rw [hmem]
        obtain ⟨cj, hcj, hcc⟩ := hyes
        exact ⟨hpid, ⟨ft, ct, st, hf⟩, cj, hcj, hcc⟩
      unfold processOne
      rw [if_neg (by simpa using hpt), if_neg (by simp [hin])]
      rfl
  · intro hpt hpid hmf
    unfold processOne
    rw [if_neg (by simpa using hpt)]
    by_cases hcond : c.parent_id ≠ "" ∧ c.parent_id ∉ seenAfter fetch [] (chunks.take k)
    · rw [if_pos hcond]
      rcases hmf with hm | hm <;> rw [hm] <;> rfl
    · rw [if_neg hcond]
      rfl

/-- Witness for C7: a single retrieved unit whose parent is found keeps
its own text as reference text. -/
theorem C7_parent_context_witness :
    ((get_parent_context_for_chunks
        (fun pid => if pid = "p1" then ParentFetch.found "P" "C" "S" else .missing)
        [⟨"u1", "p1", "alpha", "", "", ""⟩]).get? 0).map (fun e => e.reference_text) =
      some "alpha" := by
  obtain ⟨e, he, href, _⟩ :=
    (C7_parent_context
      (fun pid => if pid = "p1" then ParentFetch.found "P" "C" "S" else .missing)
      [⟨"u1", "p1", "alpha", "", "", ""⟩]).2 0 ⟨"u1", "p1", "alpha", "", "", ""⟩ (by decide)
  rw [he]
  simp only [Option.map]
  rw [href]

/-- Counterexample for C7 as stated: two retrieved units share the same
parent, the parent is found in the store, yet the second unit context is
its own text rather than the parent full text, because the seen-parent
deduplication skips the second lookup. -/
theorem C7_counterexample :
    ((get_parent_context_for_chunks
        (fun pid => if pid = "p1" then ParentFetch.found "PARENT TEXT" "Ch" "Se" else .missing)
        [⟨"u1", "p1", "alpha", "", "", ""⟩, ⟨"u2", "p1", "beta", "", "", ""⟩]).map
      (fun e => e.context_text)) = ["PARENT TEXT", "beta"]
    ∧ (if ("p1" : String) = "p1" then ParentFetch.found "PARENT TEXT" "Ch" "Se"
        else .missing) = ParentFetch.found "PARENT TEXT" "Ch" "Se"
    ∧ ("beta" : String) ≠ "PARENT TEXT" := by decide

theorem buildSources_eq :
    ∀ (chunks : List SrcChunk) (acc keys : List String),
      buildSources chunks acc keys = acc ++ (firstByKey chunks keys).map labelOf := by
  intro chunks
  induction chunks with
  | nil => intro acc keys; simp [buildSources, firstByKey]
  | cons c rest ih =>
    intro acc keys
    by_cases hk : keyOf c ∈ keys
    · simp [buildSources, firstByKey, hk, ih]
    · simp [buildSources, firstByKey, hk, ih]

theorem firstByKey_sub :
    ∀ (chunks : List SrcChunk) (keys : List String),
      ∀ c ∈ firstByKey chunks keys, c ∈ chunks := by
  intro chunks
  induction chunks with
  | nil => intro keys c hc; simp [firstByKey] at hc
  | cons c0 rest ih =>
    intro keys c hc
    by_cases hk : keyOf c0 ∈ keys
    · rw [firstByKey, if_pos hk] at hc
      exact List.mem_cons_of_mem _ (ih _ c hc)
    · rw [firstByKey, if_neg hk] at hc
      rcases List.mem_cons.mp hc with rfl | hc2
      · exact List.mem_cons_self _ _
      · exact List.mem_cons_of_mem _ (ih _ c hc2)

/-- Claim C8 (amended): the returned source list is the deduplication by
label string of the labels of the first retrieved unit of each distinct
(scope, chapter, section) key; it holds no duplicate entries and every
entry is the label of some retrieved unit.  Distinct triples whose
labels coincide collapse into a single entry, and the final enumeration
order of the Python set is implementation defined rather than
first-seen. -/
theorem C8_sources (chunks : List SrcChunk) :
    sources_list chunks = ((firstByKey chunks []).map labelOf).dedup
    ∧ (sources_list chunks).Nodup
    ∧ ∀ s ∈ sources_list chunks, ∃ c ∈ chunks, labelOf c = s := by
  have h1 : sources_list chunks = ((firstByKey chunks []).map labelOf).dedup := by
    unfold sources_list pySetList
    rw [buildSources_eq]
    simp
  refine ⟨h1, ?_, ?_⟩
  · rw [h1]
    exact List.nodup_dedup _
  · intro s hs
    rw [h1, List.mem_dedup, List.mem_map] at hs
    obtain ⟨c, hc, rfl⟩ := hs
    exact ⟨c, firstByKey_sub chunks [] c hc, rfl⟩

/-- Witness for C8 at a one-unit retrieval. -/
theorem C8_sources_witness :
    (sources_list [(⟨"i", "B", "X", "Y"⟩ : SrcChunk)]).Nodup
    ∧ ∃ c ∈ [(⟨"i", "B", "X", "Y"⟩ : SrcChunk)], labelOf c = "B, X, Y" :=
  ⟨(C8_sources [(⟨"i", "B", "X", "Y"⟩ : SrcChunk)]).2.1,
   (C8_sources [(⟨"i", "B", "X", "Y"⟩ : SrcChunk)]).2.2 "B, X, Y" (by decide)⟩

/-- Counterexample for C8 as stated: two units with distinct
(scope, chapter, section) keys produce identical labels, and the final
`list(set(..))` collapses them, so the returned list does not contain
one entry per distinct triple. -/
theorem C8_counterexample :
    sources_list [(⟨"u1", "B", "X", ""⟩ : SrcChunk), (⟨"u2", "B", "X", "X"⟩ : SrcChunk)] =
      ["B, X"]
    ∧ keyOf (⟨"u1", "B", "X", ""⟩ : SrcChunk) ≠ keyOf (⟨"u2", "B", "X", "X"⟩ : SrcChunk)
    ∧ labelOf (⟨"u1", "B", "X", ""⟩ : SrcChunk) = "B, X"
    ∧ labelOf (⟨"u2", "B", "X", "X"⟩ : SrcChunk) = "B, X"
    ∧ (sources_list [(⟨"u1", "B", "X", ""⟩ : SrcChunk),
        (⟨"u2", "B", "X", "X"⟩ : SrcChunk)]).length = 1 := by
  decide

theorem materializeSections_eq :
    ∀ (secs : List (String × PySection)) (pid : Nat),
      materializeSections secs pid =
        ((List.enumFrom pid (secs.filter fun p => !(cleanParagraphs p.2.paragraphs).isEmpty)).map
            fun q => ParentRow.mk q.1 q.2.1 q.2.2.section_title
              (joinBlank (cleanParagraphs q.2.2.paragraphs)),
         ((List.enumFrom pid (secs.filter fun p => !(cleanParagraphs p.2.paragraphs).isEmpty)).map
            fun q => (cleanParagraphs q.2.2.paragraphs).enum.map
              fun p => ChildRow.mk q.1 p.2 p.1).flatten) := by
  intro secs
  induction secs with
  | nil => intro pid; simp [materializeSections]
  | cons hd rest ih =>
    intro pid
    rcases hd with ⟨ct, sec⟩
    by_cases hemp : (cleanParagraphs sec.paragraphs).isEmpty
    · rw [materializeSections, if_pos hemp, ih]
      simp [hemp]
    · rw [materializeSections, if_neg hemp, ih]
      simp [hemp, List.enumFrom_cons]

theorem get?_map_enumFrom {beta gamma : Type} (f : Nat × gamma → beta)
    (l : List gamma) (n k : Nat) :
    ((List.enumFrom n l).map f).get? k = (l.get? k).map fun q => f (n + k, q) := by
  rw [List.get?_eq_getElem?, List.getElem?_map, List.getElem?_enumFrom,
    List.get?_eq_getElem?]
  cases l[k]? <;> rfl

theorem enumFrom_child_texts (k : Nat) :
    ∀ (n : Nat) (l : List String),
      ((List.enumFrom n l).map fun p => ChildRow.mk k p.2 p.1).map (fun c => c.text) = l := by
  intro n l
  induction l generalizing n with
  | nil => rfl
  | cons x xs ih => simp [List.enumFrom_cons, ih]

theorem enumFrom_child_idx (k : Nat) :
    ∀ (n : Nat) (l : List String),
      ((List.enumFrom n l).map fun p => ChildRow.mk k p.2 p.1).map
        (fun c => c.paragraph_index) = List.range' n l.length := by
  intro n l
  induction l generalizing n with
  | nil => rfl
  | cons x xs ih => simp [List.enumFrom_cons, List.range'_succ, ih]

/-- Claim C3: each section of the merged tree with at least one
non-whitespace paragraph yields exactly one Parent Unit whose text is
the cleaned paragraph texts joined by a blank line, and one Child Unit
per such paragraph, with ordinal indices contiguous from 0 within the
parent; whitespace-only paragraphs produce no Child Units and no
ordinal gaps.  The scenario of two chapters with three sections of two
non-empty and one blank paragraph each gives 3 Parent Units and 6 Child
Units with ordinals 0 and 1 per parent. -/
theorem C3_chunk_store (chapters : List PyChapter) :
    (process_book_chunks chapters).1.length = (nonemptySections chapters).length
    ∧ (∀ k p, (process_book_chunks chapters).1.get? k = some p →
        ∃ q, (nonemptySections chapters).get? k = some q
          ∧ p.pid = k
          ∧ p.chapter_title = q.1
          ∧ p.section_title = q.2.section_title
          ∧ p.full_text = joinBlank (cleanParagraphs q.2.paragraphs))
    ∧ (process_book_chunks chapters).2 = (childGroups chapters).flatten
    ∧ (∀ k q, (nonemptySections chapters).get? k = some q →
        ∃ g, (childGroups chapters).get? k = some g
          ∧ (∀ c ∈ g, c.parent = k)
          ∧ g.map (fun c => c.text) = cleanParagraphs q.2.paragraphs
          ∧ g.map (fun c => c.paragraph_index) =
              List.range (cleanParagraphs q.2.paragraphs).length)
    ∧ process_book_chunks
        [⟨"C1", [⟨"S1", ["a1", " ", "a2"]⟩, ⟨"S2", ["b1", " ", "b2"]⟩]⟩,
         ⟨"C2", [⟨"S3", ["c1", " ", "c2"]⟩]⟩] =
        ([⟨0, "C1", "S1", "a1\n\na2"⟩, ⟨1, "C1", "S2", "b1\n\nb2"⟩,
          ⟨2, "C2", "S3", "c1\n\nc2"⟩],
         [⟨0, "a1", 0⟩, ⟨0, "a2", 1⟩, ⟨1, "b1", 0⟩, ⟨1, "b2", 1⟩,
          ⟨2, "c1", 0⟩, ⟨2, "c2", 1⟩]) := by
  have hm := materializeSections_eq (allSections chapters) 0
  have hne : nonemptySections chapters =
      (allSections chapters).filter fun p => !(cleanParagraphs p.2.paragraphs).isEmpty := rfl
  refine ⟨?_, ?_, ?_, ?_, by decide⟩
  · rw [process_book_chunks, hm, hne]
    simp
  · intro k p hp
    rw [process_book_chunks, hm] at hp
    rw [← hne] at hp
    rw [get?_map_enumFrom] at hp
    cases hq : (nonemptySections chapters).get? k with
    | none =>
      rw [hq] at hp
      exact Option.noConfusion hp
    | some q =>
      rw [hq] at hp
      injection hp with hp
      refine ⟨q, rfl, ?_, ?_, ?_, ?_⟩ <;> rw [← hp]
      simp
  · rw [process_book_chunks, hm, childGroups, hne]
  · intro k q hq
    refine ⟨(cleanParagraphs q.2.paragraphs).enum.map fun p => ChildRow.mk k p.2 p.1,
      ?_, ?_, ?_, ?_⟩
    · rw [childGroups, get?_map_enumFrom, hq]
      simp
    · intro c hc
      rw [List.mem_map] at hc
      obtain ⟨p, _, rfl⟩ := hc
      rfl
    · exact enumFrom_child_texts k 0 _
    · rw [List.enum, enumFrom_child_idx k 0, List.range_eq_range']

/-- Witness for C3: the child group of the only section of a one-section
tree carries the contiguous ordinals 0 and 1. -/
theorem C3_chunk_store_witness :
    ((childGroups [⟨"C", [⟨"S", ["x", " ", "y"]⟩]⟩]).get? 0).map
      (fun g => g.map fun c => c.paragraph_index) = some [0, 1] := by
  obtain ⟨g, hg, _, _, hidx⟩ :=
    (C3_chunk_store [⟨"C", [⟨"S", ["x", " ", "y"]⟩]⟩]).2.2.2.1 0
      ⟨"C", ⟨"S", ["x", " ", "y"]⟩⟩ (by decide)
  rw [hg]
  simp only [Option.map]
  rw [hidx]
  decide

theorem processBookGo_ready {V : Type} (api : List String → Except String (List V)) :
    ∀ (secs : List (String × PySection)) (pid : Nat) (ps : List ParentRow)
      (cs : List (ChildEmb V)),
      (processBookGo api secs pid ps cs).status = .ready →
      ∀ p ∈ secs, ¬(cleanParagraphs p.2.paragraphs).isEmpty →
        ∃ vs, embedBatched api (cleanParagraphs p.2.paragraphs) = .ok vs := by
  intro secs
  induction secs with
  | nil => intro pid ps cs _ p hp; simp at hp
  | cons hd rest ih =>
    intro pid ps cs hst p hp hne
    rcases hd with ⟨ct, sec⟩
    rw [processBookGo] at hst
    by_cases hemp : (cleanParagraphs sec.paragraphs).isEmpty
    · rw [if_pos hemp] at hst
      rcases List.mem_cons.mp hp with rfl | hp2
      · exact absurd hemp hne
      · exact ih pid ps cs hst p hp2 hne
    · rw [if_neg hemp] at hst
      cases hemb : embedBatched api (cleanParagraphs sec.paragraphs) with
      | error e =>
        rw [hemb] at hst
        exact absurd hst (by simp)
      | ok vs =>
        rw [hemb] at hst
        rcases List.mem_cons.mp hp with rfl | hp2
        · exact ⟨vs, hemb⟩
        · exact ih _ _ _ hst p hp2 hne

theorem processBookGo_error {V : Type} (api : List String → Except String (List V)) :
    ∀ (secs : List (String × PySection)) (pid : Nat) (ps : List ParentRow)
      (cs : List (ChildEmb V)),
      (∀ c ∈ cs, c.parent < pid) →
      ∀ e, (processBookGo api secs pid ps cs).status = .error e →
        ∃ pr, (processBookGo api secs pid ps cs).parents.getLast? = some pr
          ∧ pid ≤ pr.pid
          ∧ ∀ c ∈ (processBookGo api secs pid ps cs).children, c.parent < pr.pid := by
  intro secs
  induction secs with
  | nil =>
    intro pid ps cs _ e hst
    exact absurd hst (by simp [processBookGo])
  | cons hd rest ih =>
    intro pid ps cs hcs e hst
    rcases hd with ⟨ct, sec⟩
    rw [processBookGo] at hst ⊢
    by_cases hemp : (cleanParagraphs sec.paragraphs).isEmpty
    · rw [if_pos hemp] at hst ⊢
      exact ih pid ps cs hcs e hst
    · rw [if_neg hemp] at hst ⊢
      cases hemb : embedBatched api (cleanParagraphs sec.paragraphs) with
      | error e0 =>
        rw [hemb] at hst
        dsimp only at hst ⊢
        refine ⟨⟨pid, ct, sec.section_title, joinBlank (cleanParagraphs sec.paragraphs)⟩,
          ?_, Nat.le_refl _, ?_⟩
        · simp [List.getLast?_concat]
        · intro c hc
          exact hcs c hc
      | ok vs =>
        rw [hemb] at hst
        dsimp only at hst ⊢
        have hcs2 : ∀ c ∈ cs ++ ((cleanParagraphs sec.paragraphs).zip vs).enum.map
            (fun p => ChildEmb.mk pid p.2.1 p.2.2 p.1), c.parent < pid + 1 := by
          intro c hc
          rcases List.mem_append.mp hc with hc1 | hc2
          · exact Nat.lt_succ_of_lt (hcs c hc1)
          · rw [List.mem_map] at hc2
            obtain ⟨p, _, rfl⟩ := hc2
            exact Nat.lt_succ_self _
        obtain ⟨pr, hlast, hle, hch⟩ := ih (pid + 1) _ _ hcs2 e hst
        exact ⟨pr, hlast, Nat.le_trans (Nat.le_succ _) hle, hch⟩

/-- Claim C9 (amended): an error raised by the embedding collaborator for
some batch is fatal for the run: the document can only finish `ready`
when every materialized section batch embedded successfully, and an
`error` outcome leaves no Child Unit belonging to the failing Parent
Unit (the last parent inserted) in the store.  A successful response
with a wrong vector count, however, is not detected by the code. -/
theorem C9_embedding_mismatch {V : Type} (api : List String → Except String (List V))
    (chapters : List PyChapter) :
    ((process_book_run api chapters).status = .ready →
      ∀ p ∈ allSections chapters, ¬(cleanParagraphs p.2.paragraphs).isEmpty →
        ∃ vs, embedBatched api (cleanParagraphs p.2.paragraphs) = .ok vs)
    ∧ (∀ e, (process_book_run api chapters).status = .error e →
        ∃ pr, (process_book_run api chapters).parents.getLast? = some pr
          ∧ ∀ c ∈ (process_book_run api chapters).children, c.parent ≠ pr.pid) := by
  constructor
  · intro hst p hp hne
    exact processBookGo_ready api (allSections chapters) 0 [] [] hst p hp hne
  · intro e hst
    obtain ⟨pr, hlast, _, hch⟩ :=
      processBookGo_error api (allSections chapters) 0 [] [] (by simp) e hst
    exact ⟨pr, hlast, fun c hc => Nat.ne_of_lt (hch c hc)⟩

/-- Witness for C9: a collaborator that always raises drives the run to
an error status and the failing section has no committed children. -/
theorem C9_embedding_mismatch_witness :
    ∃ pr, (process_book_run (fun _ => (Except.error "boom" : Except String (List Nat)))
        [⟨"C", [⟨"S", ["a"]⟩]⟩]).parents.getLast? = some pr
      ∧ ∀ c ∈ (process_book_run (fun _ => (Except.error "boom" : Except String (List Nat)))
          [⟨"C", [⟨"S", ["a"]⟩]⟩]).children, c.parent ≠ pr.pid :=
  (C9_embedding_mismatch (fun _ => (Except.error "boom" : Except String (List Nat)))
    [⟨"C", [⟨"S", ["a"]⟩]⟩]).2 "Error generating embeddings for batch: boom" (by decide)

/-- Counterexample for C9 as stated: the embedding collaborator returns a
single vector for a batch of two texts without raising; the positional
`zip` silently drops the unmatched text, one partial Child Unit is
committed, and the document still finishes `ready` instead of
transitioning to `error`. -/
theorem C9_counterexample :
    (process_book_run (fun _ => (Except.ok [0] : Except String (List Nat)))
        [⟨"C", [⟨"S", ["a", "b"]⟩]⟩]).status = .ready
    ∧ (process_book_run (fun _ => (Except.ok [0] : Except String (List Nat)))
        [⟨"C", [⟨"S", ["a", "b"]⟩]⟩]).children.length = 1
    ∧ (cleanParagraphs ["a", "b"]).length = 2 := by decide
